import Mathlib

/-!
Verification of the Book-Nest bookstore frontend's order, rental, inventory
and review logic, as embedded below.  The JavaScript `Map` values used for
the order-creation selections are modelled as insertion-ordered association
lists: `Map.set` updates the first matching key in place (or appends a new
entry), `Map.get` reads the first matching key, and `Map.delete` removes the
key.  Prices and discount percentages are modelled as exact rationals.
-/

namespace BookNest

universe u v

variable {α : Type u} {β : Type v}

/-- Reads a key: the JS `Map.get`, `none` when the key is absent. -/
def mapGet [DecidableEq α] : List (α × β) → α → Option β
  | [], _ => none
  | e :: rest, k => if e.1 = k then some e.2 else mapGet rest k

/-- Writes a key: the JS `Map.set`, replacing the first matching entry in
place (keeping insertion order) or appending a fresh entry at the end. -/
def mapSet [DecidableEq α] : List (α × β) → α → β → List (α × β)
  | [], k, v => [(k, v)]
  | e :: rest, k, v => if e.1 = k then (k, v) :: rest else e :: mapSet rest k v

/-- Removes a key: the JS `Map.delete`. -/
def mapDelete [DecidableEq α] : List (α × β) → α → List (α × β)
  | [], _ => []
  | e :: rest, k => if e.1 = k then mapDelete rest k else e :: mapDelete rest k

theorem mapGet_mapSet_self [DecidableEq α] (m : List (α × β)) (k : α) (v : β) :
    mapGet (mapSet m k v) k = some v := by
  induction m with
  | nil => simp [mapGet, mapSet]
  | cons e rest ih =>
    by_cases h : e.1 = k
    · simp [mapSet, h, mapGet]
    · simp [mapSet, h, mapGet, ih]

theorem mapGet_mapSet_ne [DecidableEq α] (m : List (α × β)) {k k' : α} (v : β)
    (h : k' ≠ k) : mapGet (mapSet m k v) k' = mapGet m k' := by
  have hk : ¬(k = k') := fun hx => h hx.symm
  induction m with
  | nil => simp [mapGet, mapSet, hk]
  | cons e rest ih =>
    by_cases he : e.1 = k
    · rw [mapSet, if_pos he, mapGet, if_neg hk, mapGet,
        if_neg (show ¬(e.1 = k') by rw [he]; exact hk)]
    · rw [mapSet, if_neg he, mapGet, mapGet]
      by_cases hx : e.1 = k'
      · rw [if_pos hx, if_pos hx]
      · rw [if_neg hx, if_neg hx, ih]

theorem mapGet_mapDelete_self [DecidableEq α] (m : List (α × β)) (k : α) :
    mapGet (mapDelete m k) k = none := by
  induction m with
  | nil => simp [mapGet, mapDelete]
  | cons e rest ih =>
    by_cases h : e.1 = k
    · simp [mapDelete, h, ih]
    · simp [mapDelete, h, mapGet, ih]

theorem mapGet_mapDelete_ne [DecidableEq α] (m : List (α × β)) {k k' : α}
    (h : k' ≠ k) : mapGet (mapDelete m k) k' = mapGet m k' := by
  induction m with
  | nil => simp [mapDelete]
  | cons e rest ih =>
    by_cases he : e.1 = k
    · rw [mapDelete, if_pos he, ih, mapGet,
        if_neg (show ¬(e.1 = k') by rw [he]; exact fun hx => h hx.symm)]
    · rw [mapDelete, if_neg he, mapGet, mapGet]
      by_cases hx : e.1 = k'
      · rw [if_pos hx, if_pos hx]
      · rw [if_neg hx, if_neg hx, ih]

theorem mapSet_mapGet_self [DecidableEq α] {m : List (α × β)} {k : α} {v : β}
    (h : mapGet m k = some v) : mapSet m k v = m := by
  induction m with
  | nil => simp [mapGet] at h
  | cons e rest ih =>
    obtain ⟨a, b⟩ := e
    by_cases he : a = k
    · rw [mapGet] at h
      simp only [he, if_pos] at h
      obtain rfl : b = v := by simpa using h
      simp [mapSet, he]
    · rw [mapGet] at h
      simp only [he, if_neg, if_false] at h
      simp [mapSet, he, ih h]

theorem mapSet_mapSet [DecidableEq α] (m : List (α × β)) (k : α) (v w : β) :
    mapSet (mapSet m k v) k w = mapSet m k w := by
  induction m with
  | nil => simp [mapSet]
  | cons e rest ih =>
    by_cases he : e.1 = k
    · simp [mapSet, he]
    · simp [mapSet, he, ih]

theorem mapDelete_mapSet_of_none [DecidableEq α] {m : List (α × β)} {k : α}
    (h : mapGet m k = none) (v : β) : mapDelete (mapSet m k v) k = m := by
  induction m with
  | nil => simp [mapGet, mapSet, mapDelete]
  | cons e rest ih =>
    obtain ⟨a, b⟩ := e
    rw [mapGet] at h
    by_cases he : a = k
    · simp [he] at h
    · simp only [he, if_neg, if_false] at h
      simp [mapSet, he, mapDelete, ih h]

theorem mem_mapSet [DecidableEq α] {m : List (α × β)} {k : α} {v : β}
    {e : α × β} (h : e ∈ mapSet m k v) : e ∈ m ∨ e = (k, v) := by
  induction m with
  | nil => simpa [mapSet] using h
  | cons x rest ih =>
    by_cases hx : x.1 = k
    · rw [mapSet] at h
      simp only [hx, if_pos] at h
      rcases List.mem_cons.mp h with h | h
      · exact Or.inr h
      · exact Or.inl (List.mem_cons_of_mem _ h)
    · rw [mapSet] at h
      simp only [hx, if_neg, if_false] at h
      rcases List.mem_cons.mp h with h | h
      · exact Or.inl (h ▸ List.mem_cons_self _ _)
      · rcases ih h with h | h
        · exact Or.inl (List.mem_cons_of_mem _ h)
        · exact Or.inr h

theorem mem_mapDelete [DecidableEq α] {m : List (α × β)} {k : α} {e : α × β}
    (h : e ∈ mapDelete m k) : e ∈ m := by
  induction m with
  | nil => simp [mapDelete] at h
  | cons x rest ih =>
    by_cases hx : x.1 = k
    · rw [mapDelete] at h
      simp only [hx, if_pos] at h
      exact List.mem_cons_of_mem _ (ih h)
    · rw [mapDelete] at h
      simp only [hx, if_neg, if_false] at h
      rcases List.mem_cons.mp h with h | h
      · exact h ▸ List.mem_cons_self _ _
      · exact List.mem_cons_of_mem _ (ih h)

theorem mapGet_mem [DecidableEq α] {m : List (α × β)} {k : α} {v : β}
    (h : mapGet m k = some v) : (k, v) ∈ m := by
  induction m with
  | nil => simp [mapGet] at h
  | cons e rest ih =>
    obtain ⟨a, b⟩ := e
    rw [mapGet] at h
    by_cases he : a = k
    · simp only [he, if_pos] at h
      obtain rfl : b = v := by simpa using h
      exact he ▸ List.mem_cons_self _ _
    · simp only [he, if_neg, if_false] at h
      exact List.mem_cons_of_mem _ (ih h)

/-! ## Order creation (src/app/orders/create/page.tsx)

The catalog records carry only the fields the embedded operations read;
display-only fields (title, author, description, code) are omitted. -/

/-- A row of the for-ordering book catalog (interface `BookForOrder`). -/
structure BookForOrder where
  isbn : String
  price : ℚ
  available_copies : ℕ

/-- A merchandise row (interface `Item`). -/
structure Item where
  item_id : ℕ
  price : ℚ

/-- A promotion row (interface `Promotion`). -/
structure Promotion where
  promotion_id : ℕ
  discount_percent : ℚ

/-- The `addBook` click handler: looks the ISBN up in the fetched catalog and
increments its selected quantity only while it is below the book's
`available_copies`; otherwise (or when the ISBN is unknown) the selection is
returned unchanged. -/
def addBook (books : List BookForOrder) (m : List (String × ℕ)) (isbn : String) :
    List (String × ℕ) :=
  match books.find? (fun b => b.isbn == isbn) with
  | some book =>
      if (mapGet m isbn).getD 0 < book.available_copies then
        mapSet m isbn ((mapGet m isbn).getD 0 + 1)
      else m
  | none => m

/-- The `removeBook` click handler: deletes the entry when the current
quantity is at most 1, otherwise decrements it. -/
def removeBook (m : List (String × ℕ)) (isbn : String) : List (String × ℕ) :=
  if (mapGet m isbn).getD 0 ≤ 1 then mapDelete m isbn
  else mapSet m isbn ((mapGet m isbn).getD 0 - 1)

/-- The `addItem` click handler: increments the selected quantity with no
upper bound. -/
def addItem (m : List (ℕ × ℕ)) (itemId : ℕ) : List (ℕ × ℕ) :=
  mapSet m itemId ((mapGet m itemId).getD 0 + 1)

/-- The `removeItem` click handler: deletes at quantity at most 1, otherwise
decrements. -/
def removeItem (m : List (ℕ × ℕ)) (itemId : ℕ) : List (ℕ × ℕ) :=
  if (mapGet m itemId).getD 0 ≤ 1 then mapDelete m itemId
  else mapSet m itemId ((mapGet m itemId).getD 0 - 1)

/-- The `calculateTotal` function: folds the selected book lines and then the
selected merchandise lines, adding `price * quantity` for every line whose id
resolves in the respective catalog, and finally applies the selected
promotion's discount to the grand total.  The JS guard `if (selectedPromotion)`
is truthiness on `number | null`, so it passes only for a non-null promotion
id that is also nonzero; this is embedded as the `pid ≠ 0` test. -/
def calculateTotal (books : List BookForOrder) (items : List Item)
    (promotions : List Promotion) (selectedBooks : List (String × ℕ))
    (selectedItems : List (ℕ × ℕ)) (selectedPromotion : Option ℕ) : ℚ :=
  let totalBooks :=
    selectedBooks.foldl (fun total e =>
      match books.find? (fun b => b.isbn == e.1) with
      | some book => total + book.price * (e.2 : ℚ)
      | none => total) 0
  let totalAll :=
    selectedItems.foldl (fun total e =>
      match items.find? (fun i => i.item_id == e.1) with
      | some item => total + item.price * (e.2 : ℚ)
      | none => total) totalBooks
  match selectedPromotion with
  | some pid =>
      if pid ≠ 0 then
        match promotions.find? (fun p => p.promotion_id == pid) with
        | some promotion => totalAll * (1 - promotion.discount_percent / 100)
        | none => totalAll
      else totalAll
  | none => totalAll

/-- Unit price an order line for `isbn` contributes: the price of the first
catalog row with that ISBN, 0 when the ISBN does not resolve. -/
def bookUnitPrice (books : List BookForOrder) (isbn : String) : ℚ :=
  ((books.find? (fun b => b.isbn == isbn)).map (·.price)).getD 0

/-- Unit price a merchandise line contributes, 0 when the id does not
resolve. -/
def itemUnitPrice (items : List Item) (itemId : ℕ) : ℚ :=
  ((items.find? (fun i => i.item_id == itemId)).map (·.price)).getD 0

/-- The multiplicative discount factor the page applies to the grand total:
`1 - discount_percent / 100` when a nonzero promotion id is selected and
resolves, 1 otherwise. -/
def discountFactor (promotions : List Promotion) (selectedPromotion : Option ℕ) : ℚ :=
  match selectedPromotion with
  | some pid =>
      if pid ≠ 0 then
        match promotions.find? (fun p => p.promotion_id == pid) with
        | some promotion => 1 - promotion.discount_percent / 100
        | none => 1
      else 1
  | none => 1

theorem foldl_book_lines (books : List BookForOrder)
    (sb : List (String × ℕ)) (a : ℚ) :
    sb.foldl (fun total e =>
      match books.find? (fun b => b.isbn == e.1) with
      | some book => total + book.price * (e.2 : ℚ)
      | none => total) a
      = a + (sb.map (fun e => bookUnitPrice books e.1 * (e.2 : ℚ))).sum := by
  induction sb generalizing a with
  | nil => simp
  | cons e rest ih =>
    rw [List.foldl_cons, List.map_cons, List.sum_cons]
    cases hf : books.find? (fun b => b.isbn == e.1) with
    | none => rw [ih]; simp [bookUnitPrice, hf]
    | some book => rw [ih]; simp [bookUnitPrice, hf]; ring

theorem foldl_item_lines (items : List Item)
    (si : List (ℕ × ℕ)) (a : ℚ) :
    si.foldl (fun total e =>
      match items.find? (fun i => i.item_id == e.1) with
      | some item => total + item.price * (e.2 : ℚ)
      | none => total) a
      = a + (si.map (fun e => itemUnitPrice items e.1 * (e.2 : ℚ))).sum := by
  induction si generalizing a with
  | nil => simp
  | cons e rest ih =>
    rw [List.foldl_cons, List.map_cons, List.sum_cons]
    cases hf : items.find? (fun i => i.item_id == e.1) with
    | none => rw [ih]; simp [itemUnitPrice, hf]
    | some item => rw [ih]; simp [itemUnitPrice, hf]; ring

/-- C1 (counterexample): the claim says the discount is applied exactly when
a promotion is selected and resolves.  With a fetched promotions catalog
containing a promotion whose id is 0 at 50% off, one selected book line of
price 10 and quantity 1, and that promotion selected, the page computes 10:
the JS guard `if (selectedPromotion)` is falsy at 0, so the resolving
selected promotion is ignored and the total is not `10 * (1 - 50/100) = 5`. -/
theorem order_total_promo_id_zero :
    calculateTotal [⟨"b1", 10, 1⟩] [] [⟨0, 50⟩] [("b1", 1)] [] (some 0) = 10 ∧
      ((10 : ℚ) * 1) * (1 - 50 / 100) ≠ 10 := by
  constructor
  · norm_num [calculateTotal, List.find?]
  · norm_num

/-- C1 (amended): for every fetched catalog and every selection of book and
merchandise lines, the computed order total equals the sum over all lines of
unit price times quantity (lines that do not resolve contribute unit price
0), multiplied by `1 - discount_percent/100` exactly when a promotion with
nonzero id is selected and resolves; the discount factor multiplies the
grand total once, never a single line. -/
theorem order_total_formula (books : List BookForOrder) (items : List Item)
    (promotions : List Promotion) (sb : List (String × ℕ))
    (si : List (ℕ × ℕ)) (sp : Option ℕ) :
    calculateTotal books items promotions sb si sp =
      ((sb.map (fun e => bookUnitPrice books e.1 * (e.2 : ℚ))).sum
        + (si.map (fun e => itemUnitPrice items e.1 * (e.2 : ℚ))).sum)
      * discountFactor promotions sp := by
  simp only [calculateTotal]
  rw [foldl_book_lines, foldl_item_lines, zero_add]
  cases sp with
  | none => simp [discountFactor]
  | some pid =>
    by_cases hz : pid = 0
    · simp [discountFactor, hz]
    · cases hf : promotions.find? (fun p => p.promotion_id == pid) with
      | none => simp [discountFactor, hz, hf]
      | some promotion => simp [discountFactor, hz, hf]

/-- Selection states of the `selectedBooks` map: those reachable from the
initial empty map through the page's `addBook`/`removeBook` handlers against
a fixed fetched catalog. -/
inductive BookSelReachable (books : List BookForOrder) : List (String × ℕ) → Prop where
  | nil : BookSelReachable books []
  | add (m : List (String × ℕ)) (isbn : String) :
      BookSelReachable books m → BookSelReachable books (addBook books m isbn)
  | remove (m : List (String × ℕ)) (isbn : String) :
      BookSelReachable books m → BookSelReachable books (removeBook m isbn)

/-- Selection states of the `selectedItems` map: those reachable from the
initial empty map through `addItem`/`removeItem`. -/
inductive ItemSelReachable : List (ℕ × ℕ) → Prop where
  | nil : ItemSelReachable []
  | add (m : List (ℕ × ℕ)) (itemId : ℕ) :
      ItemSelReachable m → ItemSelReachable (addItem m itemId)
  | remove (m : List (ℕ × ℕ)) (itemId : ℕ) :
      ItemSelReachable m → ItemSelReachable (removeItem m itemId)

theorem bookSel_entries_pos {books : List BookForOrder} {m : List (String × ℕ)}
    (h : BookSelReachable books m) : ∀ e ∈ m, 1 ≤ e.2 := by
  induction h with
  | nil => intro e he; simp at he
  | add m isbn hm ih =>
    intro e he
    cases hf : books.find? (fun b => b.isbn == isbn) with
    | none => simp only [addBook, hf] at he; exact ih e he
    | some book =>
      simp only [addBook, hf] at he
      by_cases hq : (mapGet m isbn).getD 0 < book.available_copies
      · rw [if_pos hq] at he
        rcases mem_mapSet he with he | he
        · exact ih e he
        · rw [he]; exact Nat.le_add_left 1 _
      · rw [if_neg hq] at he; exact ih e he
  | remove m isbn hm ih =>
    intro e he
    by_cases hq : (mapGet m isbn).getD 0 ≤ 1
    · rw [removeBook, if_pos hq] at he; exact ih e (mem_mapDelete he)
    · rw [removeBook, if_neg hq] at he
      rcases mem_mapSet he with he | he
      · exact ih e he
      · rw [he]; omega

theorem itemSel_entries_pos {m : List (ℕ × ℕ)}
    (h : ItemSelReachable m) : ∀ e ∈ m, 1 ≤ e.2 := by
  induction h with
  | nil => intro e he; simp at he
  | add m itemId hm ih =>
    intro e he
    rw [addItem] at he
    rcases mem_mapSet he with he | he
    · exact ih e he
    · rw [he]; exact Nat.le_add_left 1 _
  | remove m itemId hm ih =>
    intro e he
    by_cases hq : (mapGet m itemId).getD 0 ≤ 1
    · rw [removeItem, if_pos hq] at he; exact ih e (mem_mapDelete he)
    · rw [removeItem, if_neg hq] at he
      rcases mem_mapSet he with he | he
      · exact ih e he
      · rw [he]; omega

theorem bookSel_qty_le_available {books : List BookForOrder}
    {m : List (String × ℕ)} (h : BookSelReachable books m) :
    ∀ isbn b, books.find? (fun x => x.isbn == isbn) = some b →
      (mapGet m isbn).getD 0 ≤ b.available_copies := by
  induction h with
  | nil => intro isbn b _; simp [mapGet]
  | add m isbn0 hm ih =>
    intro isbn b hb
    cases hf : books.find? (fun x => x.isbn == isbn0) with
    | none => simp only [addBook, hf]; exact ih isbn b hb
    | some book =>
      by_cases hq : (mapGet m isbn0).getD 0 < book.available_copies
      · simp only [addBook, hf, if_pos hq]
        by_cases he : isbn = isbn0
        · subst he
          rw [hb] at hf
          obtain rfl : b = book := by injection hf
          rw [mapGet_mapSet_self]
          exact hq
        · rw [mapGet_mapSet_ne _ _ he]; exact ih isbn b hb
      · simp only [addBook, hf, if_neg hq]; exact ih isbn b hb
  | remove m isbn0 hm ih =>
    intro isbn b hb
    by_cases hq : (mapGet m isbn0).getD 0 ≤ 1
    · rw [removeBook, if_pos hq]
      by_cases he : isbn = isbn0
      · subst he; rw [mapGet_mapDelete_self]; exact Nat.zero_le _
      · rw [mapGet_mapDelete_ne _ he]; exact ih isbn b hb
    · rw [removeBook, if_neg hq]
      by_cases he : isbn = isbn0
      · subst he
        rw [mapGet_mapSet_self, Option.getD_some]
        have := ih isbn b hb
        omega
      · rw [mapGet_mapSet_ne _ _ he]; exact ih isbn b hb

/-- C2: against a fixed fetched catalog, `addBook` leaves a book's selected
quantity unchanged once it equals the book's `available_copies` (the whole
selection map is returned untouched), and in every selection state the page
can reach, the selected quantity of any ISBN that resolves in the catalog
never exceeds that book's `available_copies` — so an order request asking
for more copies than are available cannot be issued. -/
theorem book_quantity_capped (books : List BookForOrder) :
    (∀ (m : List (String × ℕ)) (isbn : String) (b : BookForOrder),
        books.find? (fun x => x.isbn == isbn) = some b →
        (mapGet m isbn).getD 0 = b.available_copies →
        addBook books m isbn = m) ∧
    (∀ m : List (String × ℕ), BookSelReachable books m →
        ∀ (isbn : String) (b : BookForOrder),
          books.find? (fun x => x.isbn == isbn) = some b →
          (mapGet m isbn).getD 0 ≤ b.available_copies) := by
  constructor
  · intro m isbn b hb hq
    simp only [addBook, hb, hq]
    rw [if_neg (lt_irrefl _)]
  · intro m hm isbn b hb
    exact bookSel_qty_le_available hm isbn b hb

/-- C2 witness: with a one-book catalog of one available copy and the
selection holding that one copy, `addBook` is the identity and the selected
quantity is within the cap. -/
theorem book_quantity_capped_witness :
    addBook [⟨"a", 10, 1⟩] [("a", 1)] "a" = [("a", 1)] ∧
      (mapGet [("a", 1)] "a").getD 0 ≤ 1 := by
  have h := book_quantity_capped [⟨"a", 10, 1⟩]
  have hreach : BookSelReachable [⟨"a", (10 : ℚ), 1⟩] [("a", 1)] := by
    have h0 : BookSelReachable [⟨"a", (10 : ℚ), 1⟩]
        (addBook [⟨"a", (10 : ℚ), 1⟩] [] "a") :=
      BookSelReachable.add [] "a" BookSelReachable.nil
    simpa [addBook, mapGet, mapSet, List.find?] using h0
  exact ⟨h.1 [("a", 1)] "a" ⟨"a", 10, 1⟩ (by simp [List.find?]) (by simp [mapGet]),
    h.2 [("a", 1)] hreach "a" ⟨"a", 10, 1⟩ (by simp [List.find?])⟩

/-- C9: in any selection state the page can reach, for a catalog book whose
selected quantity is strictly below its `available_copies`, `addBook`
followed by `removeBook` for the same ISBN restores the selection map
exactly; in particular an ISBN that was absent is removed again rather than
left at quantity 0. -/
theorem add_remove_book_roundtrip (books : List BookForOrder)
    (m : List (String × ℕ)) (isbn : String) (b : BookForOrder)
    (hr : BookSelReachable books m)
    (hb : books.find? (fun x => x.isbn == isbn) = some b)
    (hlt : (mapGet m isbn).getD 0 < b.available_copies) :
    removeBook (addBook books m isbn) isbn = m := by
  cases hg : mapGet m isbn with
  | none =>
    rw [hg, Option.getD_none] at hlt
    have hstate : addBook books m isbn = mapSet m isbn 1 := by
      simp only [addBook, hb, hg, Option.getD_none, if_pos hlt]
    rw [hstate, removeBook, mapGet_mapSet_self, Option.getD_some,
      if_pos (le_refl 1), mapDelete_mapSet_of_none hg]
  | some q =>
    have hq1 : 1 ≤ q := bookSel_entries_pos hr (isbn, q) (mapGet_mem hg)
    rw [hg, Option.getD_some] at hlt
    have hstate : addBook books m isbn = mapSet m isbn (q + 1) := by
      simp only [addBook, hb, hg, Option.getD_some, if_pos hlt]
    rw [hstate, removeBook, mapGet_mapSet_self, Option.getD_some,
      if_neg (by omega), mapSet_mapSet]
    have : q + 1 - 1 = q := by omega
    rw [this, mapSet_mapGet_self hg]

/-- C9 witness: with a two-copy book and one copy selected, adding and then
removing the book restores the one-copy selection. -/
theorem add_remove_book_roundtrip_witness :
    removeBook (addBook [⟨"a", 10, 2⟩] [("a", 1)] "a") "a" = [("a", 1)] := by
  have hreach : BookSelReachable [⟨"a", (10 : ℚ), 2⟩] [("a", 1)] := by
    have h0 : BookSelReachable [⟨"a", (10 : ℚ), 2⟩]
        (addBook [⟨"a", (10 : ℚ), 2⟩] [] "a") :=
      BookSelReachable.add [] "a" BookSelReachable.nil
    simpa [addBook, mapGet, mapSet, List.find?] using h0
  exact add_remove_book_roundtrip [⟨"a", 10, 2⟩] [("a", 1)] "a" ⟨"a", 10, 2⟩
    hreach (by simp [List.find?]) (by simp [mapGet])

/-- C10: in every state of the `selectedBooks` and `selectedItems` maps the
page can reach from the empty selection, every stored entry has quantity at
least 1: decrementing an entry at quantity 1 deletes it instead of storing
0, and no handler stores a non-positive quantity. -/
theorem selection_quantities_positive :
    (∀ (books : List BookForOrder) (m : List (String × ℕ)),
        BookSelReachable books m → ∀ e ∈ m, 1 ≤ e.2) ∧
    (∀ m : List (ℕ × ℕ), ItemSelReachable m → ∀ e ∈ m, 1 ≤ e.2) :=
  ⟨fun _ _ h => bookSel_entries_pos h, fun _ h => itemSel_entries_pos h⟩

/-- C10 witness: the entry created by `addItem` for item 7 on the empty
selection has quantity 1. -/
theorem selection_quantities_positive_witness : 1 ≤ ((7, 1) : ℕ × ℕ).2 := by
  have hreach : ItemSelReachable [(7, 1)] := by
    have h0 := ItemSelReachable.add [] 7 ItemSelReachable.nil
    simpa [addItem, mapGet, mapSet] using h0
  exact selection_quantities_positive.2 [(7, 1)] hreach (7, 1)
    (List.mem_singleton.mpr rfl)

/-! ## Book detail page (copies, add-copies form, review form) -/

/-- A copy row of a book (interface `BookCopy`); `can_rent` is a numeric
flag in the source and the display-only `description` is omitted. -/
structure BookCopy where
  b_item_id : ℕ
  isbn : String
  can_rent : ℕ
  price : ℚ
  status : String

/-- The page's available-copies view: `copies.filter(c => c.status === 'available')`. -/
def availableCopies (copies : List BookCopy) : List BookCopy :=
  copies.filter (fun c => c.status == "available")

/-- C5: the available-copies view is a subsequence of the copies list, and a
copy belongs to it exactly when it is one of the book's copies with status
`available` — order is preserved and no copy of another status appears. -/
theorem available_copies_spec (copies : List BookCopy) :
    List.Sublist (availableCopies copies) copies ∧
      ∀ c : BookCopy, c ∈ availableCopies copies ↔
        c ∈ copies ∧ c.status = "available" := by
  refine ⟨List.filter_sublist _, fun c => ?_⟩
  simp [availableCopies, List.mem_filter]

/-- The add-copies form's submit validation.  The price field is a
`type="number"` input whose state is the empty string (modelled `none`) or a
numeric string (modelled `some` of its parsed value); the handler rejects a
missing price (`!addCopiesForm.price`), then a parsed price at most 0, then
a quantity at most 0, and only otherwise issues the add-copies request.
`true` means the request is issued. -/
def addCopiesRequestIssued (quantity : ℤ) (price : Option ℚ) : Bool :=
  match price with
  | none => false
  | some p => if p ≤ 0 then false else if quantity ≤ 0 then false else true

/-- C6: the add-copies request is issued exactly when the entered quantity
is positive and the entered price is present and parses to a positive value;
a missing or non-positive price, or a non-positive quantity, is rejected
with no request issued (so inventory is untouched). -/
theorem add_copies_validation (quantity : ℤ) (price : Option ℚ) :
    addCopiesRequestIssued quantity price = true ↔
      0 < quantity ∧ ∃ p : ℚ, price = some p ∧ 0 < p := by
  cases price with
  | none => simp [addCopiesRequestIssued]
  | some p =>
    constructor
    · intro h
      rw [addCopiesRequestIssued] at h
      by_cases h1 : p ≤ 0
      · rw [if_pos h1] at h; exact absurd h (by simp)
      · rw [if_neg h1] at h
        by_cases h2 : quantity ≤ 0
        · rw [if_pos h2] at h; exact absurd h (by simp)
        · exact ⟨by omega, p, rfl, by linarith⟩
    · rintro ⟨hq, q, hpq, hqpos⟩
      obtain rfl : p = q := by injection hpq
      rw [addCopiesRequestIssued, if_neg (by linarith), if_neg (by omega)]

/-- The review form's rating options, rendered `[5, 4, 3, 2, 1].map(...)`:
the only values the rating select can submit. -/
def ratingOptions : List ℕ := [5, 4, 3, 2, 1]

/-- Values of `reviewForm.rating` in states the page can reach: the initial
state is 5, the post-submit and post-fetch resets store 5 again, and the
select's change handler stores one of the rendered options. -/
inductive RatingReachable : ℕ → Prop where
  | start : RatingReachable 5
  | select (prev r : ℕ) : RatingReachable prev → r ∈ ratingOptions →
      RatingReachable r
  | reset (prev : ℕ) : RatingReachable prev → RatingReachable 5

/-- C7: in every reachable state of the review form (initial state, after a
reset, after any selection) the rating is one of the rendered options
`{1, 2, 3, 4, 5}`, hence an integer in the closed interval `[1, 5]`. -/
theorem rating_in_range (r : ℕ) (h : RatingReachable r) :
    r ∈ ratingOptions ∧ 1 ≤ r ∧ r ≤ 5 := by
  induction h with
  | start => refine ⟨?_, by omega, by omega⟩; simp [ratingOptions]
  | select prev r hp hr ih =>
    refine ⟨hr, ?_, ?_⟩ <;>
      · have : r = 5 ∨ r = 4 ∨ r = 3 ∨ r = 2 ∨ r = 1 := by
          simpa [ratingOptions] using hr
        omega
  | reset prev hp ih => refine ⟨?_, by omega, by omega⟩; simp [ratingOptions]

/-- C7 witness: the initial rating 5 is an option and lies in `[1, 5]`. -/
theorem rating_in_range_witness :
    (5 : ℕ) ∈ ratingOptions ∧ 1 ≤ (5 : ℕ) ∧ (5 : ℕ) ≤ 5 :=
  rating_in_range 5 RatingReachable.start

/-! ## Rentals (src/app/rentals/page.tsx and the rental engine)

A rental's `rent_date` and `return_date` are day numbers; the API's
`return_date` is either null or a non-empty date string, so the page's
truthiness test `!r.return_date` holds exactly for a null `return_date` and
is embedded as `Option.isNone`. -/

/-- A rental record (interface `BookRent`); the display-only joined fields
(`book_title`, `customer_name`) are omitted. -/
structure BookRent where
  book_rent_id : ℕ
  customer_id : ℕ
  b_item_id : ℕ
  rent_date : ℕ
  return_date : Option ℕ
  penalty : Option ℚ

/-- The page's active-rentals view: `rentals.filter(r => !r.return_date)`. -/
def activeRentals (rentals : List BookRent) : List BookRent :=
  rentals.filter (fun r => r.return_date.isNone)

/-- The page's returned-rentals view: `rentals.filter(r => r.return_date)`. -/
def returnedRentals (rentals : List BookRent) : List BookRent :=
  rentals.filter (fun r => r.return_date.isSome)

/-- C8: the active rentals are exactly the rentals with a null
`return_date`, the returned rentals exactly those with a non-null
`return_date`, and the two views partition the list: their lengths add up
to the total number of rentals. -/
theorem rentals_partition (rentals : List BookRent) :
    (∀ r : BookRent, r ∈ activeRentals rentals ↔
        r ∈ rentals ∧ r.return_date = none) ∧
    (∀ r : BookRent, r ∈ returnedRentals rentals ↔
        r ∈ rentals ∧ r.return_date ≠ none) ∧
    (activeRentals rentals).length + (returnedRentals rentals).length
      = rentals.length := by
  refine ⟨fun r => ?_, fun r => ?_, ?_⟩
  · simp [activeRentals, List.mem_filter, Option.isNone_iff_eq_none]
  · simp [returnedRentals, List.mem_filter, Option.isSome_iff_ne_none]
  · induction rentals with
    | nil => rfl
    | cons r rest ih =>
      cases h : r.return_date <;>
        simp [activeRentals, returnedRentals, List.filter_cons, h] at ih ⊢ <;>
        omega

/-- Modelled from the spec: the rental engine's policy configuration
(recognized options `grace_period_days` and `daily_penalty_rate`, §4.3);
the backend implementing the rental endpoints is not among the repository's
source files. -/
structure RentalConfig where
  grace_period_days : ℕ
  daily_penalty_rate : ℚ

/-- Modelled from the spec: the error taxonomy of §7; the backend raising
these is not among the repository's source files. -/
inductive ApiError where
  | ValidationError
  | NotFoundError
  | ConflictError
  | InsufficientInventoryError

/-- Modelled from the spec: the penalty computed when a rental is returned
(§4.3) — if the rental duration `return_date - rent_date` exceeds the
configured grace period, the daily rate times the number of days over,
otherwise 0.  The backend computing it is not among the repository's source
files. -/
def computePenalty (cfg : RentalConfig) (rent_date return_date : ℕ) : ℚ :=
  if return_date - rent_date ≤ cfg.grace_period_days then 0
  else cfg.daily_penalty_rate * ((return_date - rent_date - cfg.grace_period_days : ℕ) : ℚ)

/-- Modelled from the spec: `returnBook(rentalId)` (§4.3) — fails with
ConflictError when the rental already has a non-null `return_date` (the
store, and so the rental's `return_date` and `penalty`, is then left
unchanged), otherwise sets `return_date = now` and computes the penalty.
The backend endpoint is not among the repository's source files. -/
def returnBook (cfg : RentalConfig) (now : ℕ) (r : BookRent) :
    Except ApiError BookRent :=
  if r.return_date.isSome then Except.error ApiError.ConflictError
  else Except.ok { r with return_date := some now,
                          penalty := some (computePenalty cfg r.rent_date now) }

/-- C3: for a rental returned no earlier than it was rented, the penalty is
0 when the rental duration does not exceed the grace period, equals the
daily rate times the number of days over the grace period otherwise, and is
strictly increasing in days late for a positive daily rate; with
`grace_period_days = 14`, `daily_penalty_rate = 1/2` dollars, rented day 0
and returned day 20 the penalty is `6 * 1/2 = 3` dollars. -/
theorem rental_penalty_policy (cfg : RentalConfig) (rent ret ret' : ℕ) :
    (ret - rent ≤ cfg.grace_period_days → computePenalty cfg rent ret = 0) ∧
    (cfg.grace_period_days < ret - rent →
        computePenalty cfg rent ret
          = cfg.daily_penalty_rate * ((ret - rent - cfg.grace_period_days : ℕ) : ℚ)) ∧
    (0 < cfg.daily_penalty_rate → rent ≤ ret →
        cfg.grace_period_days < ret - rent → ret < ret' →
        computePenalty cfg rent ret < computePenalty cfg rent ret') ∧
    computePenalty ⟨14, 1 / 2⟩ 0 20 = 3 := by
  refine ⟨fun h => ?_, fun h => ?_, fun hrate hle h h' => ?_, ?_⟩
  · rw [computePenalty, if_pos h]
  · rw [computePenalty, if_neg (by omega)]
  · rw [computePenalty, if_neg (by omega), computePenalty, if_neg (by omega)]
    have hdays : ret - rent - cfg.grace_period_days
        < ret' - rent - cfg.grace_period_days := by omega
    exact mul_lt_mul_of_pos_left (by exact_mod_cast hdays) hrate
  · norm_num [computePenalty]

/-- C3 witness: the spec's scenario — grace period 14 days, rate half a
dollar per day, rented on day 0 and returned on day 20 gives penalty 3;
returned on day 10 it gives 0. -/
theorem rental_penalty_policy_witness :
    computePenalty ⟨14, 1 / 2⟩ 0 20 = 3 ∧ computePenalty ⟨14, 1 / 2⟩ 0 10 = 0 :=
  ⟨(rental_penalty_policy ⟨14, 1 / 2⟩ 0 20 21).2.2.2,
    (rental_penalty_policy ⟨14, 1 / 2⟩ 0 10 11).1 (by decide)⟩

/-- C4: returning a rental whose `return_date` is already non-null always
fails with ConflictError (its `return_date` and `penalty` are left as they
were, the store untouched), and the rentals page offers the return action
only in its active list — exactly the rentals with a null `return_date`. -/
theorem return_already_returned_conflict (cfg : RentalConfig) (now : ℕ)
    (r : BookRent) (d : ℕ) (rentals : List BookRent) :
    (r.return_date = some d →
        returnBook cfg now r = Except.error ApiError.ConflictError) ∧
    (∀ x : BookRent, x ∈ activeRentals rentals ↔
        x ∈ rentals ∧ x.return_date = none) := by
  constructor
  · intro h
    rw [returnBook, if_pos (by rw [h]; rfl)]
  · intro x
    simp [activeRentals, List.mem_filter, Option.isNone_iff_eq_none]

/-- C4 witness: a rental already returned on day 5 is rejected with
ConflictError when returned again on day 9. -/
theorem return_already_returned_conflict_witness :
    returnBook ⟨14, 1 / 2⟩ 9 ⟨1, 2, 3, 0, some 5, none⟩
      = Except.error ApiError.ConflictError :=
  (return_already_returned_conflict ⟨14, 1 / 2⟩ 9 ⟨1, 2, 3, 0, some 5, none⟩ 5 []).1 rfl

end BookNest
